import Mathlib

/-!
Verification of the finite-element option pricing engine
(`src/time/stepper.py`, `src/space/solver.py`, `src/space/forms.py`,
`src/space/boundary.py`, `src/space/adaptive.py`, `src/transform.py`,
`src/core/solver.py`, `src/core/dynamics_black_scholes.py`).

Machine floats are embedded as exact numbers: `ℚ` for the linear-algebra
layer (so that concrete runs evaluate), `ℝ` for the transcendental
coordinate transforms.  `numpy` arrays are embedded as lists; the
elementwise numpy operations (`@`, `+`, `*`, `np.maximum`) become
`List.zipWith` operations, which agree with numpy on equal-shaped arrays.
External scikit-fem collaborators (the sparse linear solve, mesh and basis
construction, assembly) are abstracted as function parameters; collaborator
routines whose behaviour a claim depends on (`fem.enforce`,
`Mesh.remove_elements`) are modelled from the stated
contract and flagged as such in their doc comments.
-/

namespace FEO

/-- Vectors of degrees of freedom (`numpy` 1-d arrays of floats). -/
abbrev Vec (α : Type) := List α

/-- Matrices as row lists (`numpy` 2-d arrays / sparse matrices). -/
abbrev Mat (α : Type) := List (List α)

section ListAlgebra

variable {α : Type} [CommRing α]

/-- Dot product of two coordinate lists. -/
def dotv (a b : Vec α) : α := (List.zipWith (fun x y => x * y) a b).sum

/-- Matrix–vector product `M @ v`. -/
def matvec (M : Mat α) (v : Vec α) : Vec α := M.map (fun row => dotv row v)

/-- Elementwise vector sum. -/
def vadd (a b : Vec α) : Vec α := List.zipWith (fun x y => x + y) a b

/-- Elementwise vector difference. -/
def vsub (a b : Vec α) : Vec α := List.zipWith (fun x y => x - y) a b

/-- Scalar multiple of a vector. -/
def smulv (c : α) (v : Vec α) : Vec α := v.map (fun x => c * x)

/-- Elementwise matrix sum. -/
def madd (M N : Mat α) : Mat α := List.zipWith vadd M N

/-- Elementwise matrix difference. -/
def msub (M N : Mat α) : Mat α := List.zipWith vsub M N

/-- Scalar multiple of a matrix. -/
def smulm (c : α) (M : Mat α) : Mat α := M.map (smulv c)

end ListAlgebra

/-- Elementwise maximum, `np.maximum`. -/
def vmax (a b : Vec ℚ) : Vec ℚ := List.zipWith max a b

/-- Entry of a `zipWith` at an in-range index. -/
theorem getD_zipWith {α : Type} (f : α → α → α) (d : α) :
    ∀ (a b : List α) (j : Nat), j < (List.zipWith f a b).length →
      (List.zipWith f a b).getD j d = f (a.getD j d) (b.getD j d)
  | [], _, _, h => by simp at h
  | _ :: _, [], _, h => by simp at h
  | x :: a, y :: b, 0, _ => rfl
  | x :: a, y :: b, j + 1, h => by
    simpa using getD_zipWith f d a b j (by simpa using h)

/-!
## Time stepping (`src/time/stepper.py`)

`ThetaScheme.solve` consumes a `SpaceDiscretization` through the protocol
of `src/core/interfaces.py`: `initial_condition`, `matrices`,
`boundary_term`, `dirichlet`, `apply_dirichlet`, plus an optional
`BoundaryCondition` strategy and the external solver `fem.solve`
(abstracted as the `lsolve` parameter).
-/

/-- The `SpaceDiscretization` protocol of `src/core/interfaces.py`,
as consumed by `ThetaScheme.solve`. -/
structure SpaceDisc where
  initial_condition : Vec ℚ
  matrices : ℚ → ℚ → Mat ℚ × Mat ℚ
  boundary_term : ℚ → Vec ℚ
  dirichlet : ℚ → Vec ℚ

/-- A `BoundaryCondition` strategy: `apply(space, A, b, th)` from
`src/core/interfaces.py`. -/
abbrev BCStrategy := SpaceDisc → Mat ℚ → Vec ℚ → ℚ → Mat ℚ × Vec ℚ

/-- `ThetaScheme` (`src/time/stepper.py`): stores `θ`. -/
structure ThetaScheme where
  theta : ℚ

/-- Body of one iteration of the loop in `ThetaScheme.solve`
(`src/time/stepper.py` lines 49–64): build the right-hand side,
optionally apply the boundary-condition strategy, solve, and apply the
American floor against row 0. -/
def thetaStep (sch : ThetaScheme) (lsolve : Mat ℚ → Vec ℚ → Vec ℚ)
    (space : SpaceDisc) (bc : Option BCStrategy) (A B : Mat ℚ) (dt : ℚ)
    (v0 : Vec ℚ) (american : Bool) (vi : Vec ℚ) (thi : ℚ) : Vec ℚ :=
  let b_previous := matvec B vi
  let b_inhom := vadd (smulv sch.theta (space.boundary_term (thi + dt)))
    (smulv (1 - sch.theta) (space.boundary_term thi))
  let b := vadd b_previous (smulv dt b_inhom)
  let next :=
    match bc with
    | some cond => let Ab := cond space A b thi; lsolve Ab.1 Ab.2
    | none => lsolve A b
  if american then vmax next v0 else next

/-- Time-marching: iterate `step` over the listed time nodes, collecting
the successive rows `v[1], v[2], …` (row `v[0]` is prepended by the
caller). -/
def march (step : Vec ℚ → ℚ → Vec ℚ) : Vec ℚ → List ℚ → List (Vec ℚ)
  | _, [] => []
  | vi, thi :: rest =>
    let vnext := step vi thi
    vnext :: march step vnext rest

/-- `ThetaScheme.solve` (`src/time/stepper.py` lines 36–66).
`dt = t[1] - t[0]`; row 0 is `space.initial_condition()`; the loop runs
over `t[:-1]`.  A grid with fewer than two nodes makes `t[1]` raise an
`IndexError` in the source; that case is embedded as the empty result. -/
def ThetaScheme.solve (sch : ThetaScheme) (lsolve : Mat ℚ → Vec ℚ → Vec ℚ)
    (t : List ℚ) (space : SpaceDisc) (bc : Option BCStrategy)
    (american : Bool) : List (Vec ℚ) :=
  match t with
  | t0 :: t1 :: _ =>
    let dt := t1 - t0
    let v0 := space.initial_condition
    let AB := space.matrices sch.theta dt
    v0 :: march (thetaStep sch lsolve space bc AB.1 AB.2 dt v0 american)
      v0 t.dropLast
  | _ => []

/-- Every row produced by `march` with an American-floored step dominates
`v0` elementwise. -/
theorem march_american_floor (sch : ThetaScheme)
    (lsolve : Mat ℚ → Vec ℚ → Vec ℚ) (space : SpaceDisc)
    (bc : Option BCStrategy) (A B : Mat ℚ) (dt : ℚ) (v0 : Vec ℚ) :
    ∀ (ths : List ℚ) (v : Vec ℚ)
      (row : Vec ℚ),
      row ∈ march (thetaStep sch lsolve space bc A B dt v0 true) v ths →
      ∀ j : Nat, j < row.length → v0.getD j 0 ≤ row.getD j 0 := by
  intro ths
  induction ths with
  | nil => intro v row h; simp [march] at h
  | cons th rest ih =>
    intro v row h j hj
    rw [march, List.mem_cons] at h
    rcases h with h | h
    · subst h
      simp only [thetaStep, if_true] at hj ⊢
      simp only [vmax] at hj ⊢
      rw [getD_zipWith _ _ _ _ j hj]
      exact le_max_right _ _
    · exact ih _ row h j hj

/-- A concrete one-dof discretisation: mass `[[1]]`, stiffness `[[-1]]`,
`θ = 0`, `dt = 1` give `A = [[1]]`, `B = [[0]]`; the boundary functional
vanishes. -/
def spaceOne : SpaceDisc where
  initial_condition := [1]
  matrices := fun _ _ => ([[1]], [[0]])
  boundary_term := fun _ => [0]
  dirichlet := fun _ => [0]

/-- The exact sparse solve `fem.solve` specialised to the identity matrix
`[[1]]`, for which the solution of `A·x = b` is `b` itself. -/
def lsolveExact : Mat ℚ → Vec ℚ → Vec ℚ := fun _ b => b

/-- C1: with `is_american = True`, row 0 of `ThetaScheme.solve` is the
terminal payoff projection `space.initial_condition()` and every row
dominates row 0 elementwise; with `is_american = False` no floor is
imposed — at a concrete discretisation the second row falls strictly
below row 0. -/
theorem theta_scheme_american_floor :
    (∀ (sch : ThetaScheme) (lsolve : Mat ℚ → Vec ℚ → Vec ℚ) (t : List ℚ)
      (space : SpaceDisc) (bc : Option BCStrategy),
      2 ≤ t.length →
      (sch.solve lsolve t space bc true).head? =
        some space.initial_condition ∧
      ∀ row ∈ sch.solve lsolve t space bc true, ∀ j : Nat, j < row.length →
        space.initial_condition.getD j 0 ≤ row.getD j 0) ∧
    ((ThetaScheme.solve ⟨0⟩ lsolveExact [0, 1] spaceOne none false).getD 1
        []).getD 0 0 <
      ((ThetaScheme.solve ⟨0⟩ lsolveExact [0, 1] spaceOne none false).getD 0
        []).getD 0 0 := by
  constructor
  · intro sch lsolve t space bc ht
    match t, ht with
    | t0 :: t1 :: rest, _ =>
      constructor
      · rfl
      · intro row hrow j hj
        rw [ThetaScheme.solve, List.mem_cons] at hrow
        rcases hrow with h | h
        · subst h; exact le_refl _
        · exact march_american_floor sch lsolve space bc _ _ _ _ _ _ row h j hj
  · norm_num [ThetaScheme.solve, march, thetaStep, spaceOne, lsolveExact,
      matvec, vadd, smulv, dotv]

/-- Witness for C1 at the concrete one-dof discretisation and grid
`[0, 1]`. -/
theorem theta_scheme_american_floor_witness :
    (ThetaScheme.solve ⟨0⟩ lsolveExact [0, 1] spaceOne none true).head? =
      some spaceOne.initial_condition :=
  (theta_scheme_american_floor.1 ⟨0⟩ lsolveExact [0, 1] spaceOne none
    (by decide)).1

/-- Row `i+1` of the marched sequence is the step applied to row `i`. -/
theorem march_get_succ (step : Vec ℚ → ℚ → Vec ℚ) :
    ∀ (ths : List ℚ) (v : Vec ℚ) (i : Nat) (thi : ℚ),
      ths.get? i = some thi →
      (v :: march step v ths).get? (i + 1) =
        ((v :: march step v ths).get? i).map (fun vi => step vi thi)
  | [], _, i, _, h => by simp at h
  | th :: rest, v, 0, thi, h => by
    have : th = thi := by simpa using h
    subst this
    rfl
  | th :: rest, v, i + 1, thi, h => by
    have hrec := march_get_succ step rest (step v th) i thi (by simpa using h)
    simpa [march] using hrec

/-- In-range entries of `dropLast` agree with the original list. -/
theorem get?_dropLast_eq {α : Type} (l : List α) (i : Nat)
    (h : i + 1 < l.length) : l.dropLast.get? i = l.get? i := by
  rw [List.dropLast_eq_take]
  exact List.get?_take (by omega)

/-- C2: for every step `i`, the right-hand side of the linear system is
`B·v[i] + dt·(θ·boundary_term(t[i]+dt) + (1−θ)·boundary_term(t[i]))` with
`dt = t[1] − t[0]`, and `v[i+1]` is the output of the linear solve on that
system after the optional boundary-condition strategy transforms `(A, b)`
(with the American floor applied afterwards when requested). -/
theorem theta_scheme_step_rhs (sch : ThetaScheme)
    (lsolve : Mat ℚ → Vec ℚ → Vec ℚ) (space : SpaceDisc)
    (bc : Option BCStrategy) (american : Bool) (t : List ℚ)
    (t0 t1 : ℚ) (rest : List ℚ) (hts : t = t0 :: t1 :: rest)
    (i : Nat) (hi : i + 1 < t.length) :
    (sch.solve lsolve t space bc american).get? (i + 1) =
      ((sch.solve lsolve t space bc american).get? i).map (fun vi =>
        let dt := t1 - t0
        let AB := space.matrices sch.theta dt
        let b := vadd (matvec AB.2 vi)
          (smulv dt (vadd
            (smulv sch.theta (space.boundary_term (t.getD i 0 + dt)))
            (smulv (1 - sch.theta) (space.boundary_term (t.getD i 0)))))
        let next :=
          match bc with
          | some cond => let Ab := cond space AB.1 b (t.getD i 0)
              lsolve Ab.1 Ab.2
          | none => lsolve AB.1 b
        if american then vmax next space.initial_condition else next) := by
  subst hts
  have hlt : i < (t0 :: t1 :: rest).length := by
    simp only [List.length_cons] at hi ⊢; omega
  have hdrop : (t0 :: t1 :: rest).dropLast.get? i =
      some ((t0 :: t1 :: rest).getD i 0) := by
    rw [get?_dropLast_eq _ _ hi, List.get?_eq_getElem?,
      List.getElem?_eq_getElem hlt, List.getD_eq_getElem?_getD,
      List.getElem?_eq_getElem hlt]
    rfl
  exact march_get_succ _ _ _ i _ hdrop

/-- Witness for C2: grid `[0, 1]`, step `0`, concrete one-dof
discretisation; both sides evaluate to row `[0]`. -/
theorem theta_scheme_step_rhs_witness :
    (ThetaScheme.solve ⟨0⟩ lsolveExact [0, 1] spaceOne none false).get? 1 =
      ((ThetaScheme.solve ⟨0⟩ lsolveExact [0, 1] spaceOne none
        false).get? 0).map (fun vi =>
        lsolveExact (spaceOne.matrices (0 : ℚ) ((1 : ℚ) - 0)).1
          (vadd (matvec (spaceOne.matrices (0 : ℚ) ((1 : ℚ) - 0)).2 vi)
            (smulv ((1 : ℚ) - 0) (vadd
              (smulv (0 : ℚ) (spaceOne.boundary_term
                (([0, 1] : List ℚ).getD 0 0 + ((1 : ℚ) - 0))))
              (smulv (1 - (0 : ℚ)) (spaceOne.boundary_term
                (([0, 1] : List ℚ).getD 0 0))))))) :=
  theta_scheme_step_rhs ⟨0⟩ lsolveExact spaceOne none false [0, 1] 0 1 []
    rfl 0 (by decide)

/-- A one-dof discretisation whose natural boundary functional depends on
time: `boundary_term(th) = [th]`, mass `[[1]]`, stiffness `[[0]]`
(`A = B = [[1]]` for every `θ`, `dt`). -/
def spaceTimeDep : SpaceDisc where
  initial_condition := [0]
  matrices := fun _ _ => ([[1]], [[1]])
  boundary_term := fun th => [th]
  dirichlet := fun _ => [0]

/-- With no boundary-condition strategy the step body ignores its time
argument as soon as the boundary functional is time-constant. -/
theorem thetaStep_time_invariant (sch : ThetaScheme)
    (lsolve : Mat ℚ → Vec ℚ → Vec ℚ) (space : SpaceDisc) (A B : Mat ℚ)
    (dt : ℚ) (v0 : Vec ℚ) (american : Bool)
    (hbt : ∀ s1 s2 : ℚ, space.boundary_term s1 = space.boundary_term s2)
    (vi : Vec ℚ) (a b : ℚ) :
    thetaStep sch lsolve space none A B dt v0 american vi a =
      thetaStep sch lsolve space none A B dt v0 american vi b := by
  simp only [thetaStep]
  rw [hbt (a + dt) (b + dt), hbt a b]

/-- A time-independent step makes the marched rows depend on the node
list only through its length. -/
theorem march_length_invariant (step : Vec ℚ → ℚ → Vec ℚ)
    (hstep : ∀ v a b, step v a = step v b) :
    ∀ (l1 l2 : List ℚ) (v : Vec ℚ), l1.length = l2.length →
      march step v l1 = march step v l2
  | [], [], _, _ => rfl
  | [], _ :: _, _, h => by simp at h
  | _ :: _, [], _, h => by simp at h
  | a :: l1, b :: l2, v, h => by
    rw [march, march, hstep v a b]
    rw [march_length_invariant step hstep l1 l2 (step v b)
      (by simpa using h)]

/-- C9 (amended): `ThetaScheme.solve` freezes `dt = t[1] − t[0]` for every
step, so with no boundary-condition strategy and a time-constant boundary
functional the solution depends on the grid only through its length and
its first interval. -/
theorem theta_scheme_frozen_dt (sch : ThetaScheme)
    (lsolve : Mat ℚ → Vec ℚ → Vec ℚ) (space : SpaceDisc) (american : Bool)
    (hbt : ∀ s1 s2 : ℚ, space.boundary_term s1 = space.boundary_term s2)
    (t0 t1 u0 u1 : ℚ) (r1 r2 : List ℚ) (hlen : r1.length = r2.length)
    (hdt : t1 - t0 = u1 - u0) :
    ThetaScheme.solve sch lsolve (t0 :: t1 :: r1) space none american =
      ThetaScheme.solve sch lsolve (u0 :: u1 :: r2) space none american := by
  simp only [ThetaScheme.solve, hdt]
  rw [march_length_invariant _
    (thetaStep_time_invariant sch lsolve space _ _ _ _ american hbt)]
  simp only [List.dropLast, List.length_dropLast, List.length_cons, hlen]

/-- Witness for the amended C9: grids `[0, 1]` and `[5, 6]` share length
and first interval, so the solves agree. -/
theorem theta_scheme_frozen_dt_witness :
    ThetaScheme.solve ⟨1⟩ lsolveExact [0, 1] spaceOne none false =
      ThetaScheme.solve ⟨1⟩ lsolveExact [5, 6] spaceOne none false :=
  theta_scheme_frozen_dt ⟨1⟩ lsolveExact spaceOne false
    (fun _ _ => rfl) 0 1 5 6 [] [] rfl (by norm_num)

/-- Counterexample to C9 as stated: the grids `[0, 1, 2, 3]` and
`[0, 1, 5, 9]` have the same length and the same first interval, yet with
a time-dependent boundary functional the solves differ (the boundary
functional is evaluated at the actual grid nodes, not at multiples of
`dt`). -/
theorem theta_scheme_nonuniform_grid_cex :
    ([0, 1, 2, 3] : List ℚ).length = ([0, 1, 5, 9] : List ℚ).length ∧
    (([0, 1, 2, 3] : List ℚ).getD 1 0 - ([0, 1, 2, 3] : List ℚ).getD 0 0 =
      ([0, 1, 5, 9] : List ℚ).getD 1 0 - ([0, 1, 5, 9] : List ℚ).getD 0 0) ∧
    ((ThetaScheme.solve ⟨1⟩ lsolveExact [0, 1, 2, 3] spaceTimeDep none
        false).getD 3 []).getD 0 0 ≠
      ((ThetaScheme.solve ⟨1⟩ lsolveExact [0, 1, 5, 9] spaceTimeDep none
        false).getD 3 []).getD 0 0 := by
  refine ⟨rfl, by norm_num, ?_⟩
  norm_num [ThetaScheme.solve, march, thetaStep, spaceTimeDep, lsolveExact,
    matvec, vadd, smulv, dotv]

/-!
## Spatial solver state (`src/space/solver.py`)
-/

/-- The state owned by `SpaceSolver`: mesh handle, cell and facet bases,
precomputed mass and stiffness matrices, and the optional adaptive
refinement criterion (`self.adapt` is an `AdaptiveMesh` when an
`adaptive_criterion` string was supplied at construction, `None`
otherwise).  Mesh and basis handles are opaque external values. -/
structure SpaceSolver (Mesh Basis : Type) where
  mesh : Mesh
  Vh : Basis
  dVh : Basis
  mass : Mat ℚ
  stiffness : Mat ℚ
  adapt : Option String

/-- `SpaceSolver.matrices` (`src/space/solver.py` lines 86–90):
`A = mass − θ·dt·stiffness`, `B = mass + (1−θ)·dt·stiffness`.  The method
body assigns nothing to `self`; the returned second component is the
(unchanged) solver state. -/
def SpaceSolver.matrices {Mesh Basis : Type} (s : SpaceSolver Mesh Basis)
    (theta dt : ℚ) : (Mat ℚ × Mat ℚ) × SpaceSolver Mesh Basis :=
  ((msub s.mass (smulm (theta * dt) s.stiffness),
    madd s.mass (smulm ((1 - theta) * dt) s.stiffness)), s)

/-- The matrix pair built by the legacy `solve_pde`
(`src/core/solver.py` lines 40–43): `A = I − lam·dt·L`, `B = A + dt·L`. -/
def solve_pde_matrices (I L : Mat ℚ) (lam dt : ℚ) : Mat ℚ × Mat ℚ :=
  let A := msub I (smulm (lam * dt) L)
  (A, madd A (smulm dt L))

/-- Entrywise: `(a − c·l) + d·l = a + (d − c)·l`. -/
theorem vadd_vsub_smulv (c d : ℚ) :
    ∀ (a l : Vec ℚ),
      vadd (vsub a (smulv c l)) (smulv d l) = vadd a (smulv (d - c) l)
  | [], _ => rfl
  | _ :: _, [] => rfl
  | x :: a, y :: l => by
    simp only [vadd, vsub, smulv, List.map_cons, List.zipWith_cons_cons]
    refine congrArg₂ _ (by ring) ?_
    exact vadd_vsub_smulv c d a l

/-- Rowwise version of `vadd_vsub_smulv`. -/
theorem madd_msub_smulm (c d : ℚ) :
    ∀ (M K : Mat ℚ),
      madd (msub M (smulm c K)) (smulm d K) = madd M (smulm (d - c) K)
  | [], _ => rfl
  | _ :: _, [] => rfl
  | row :: M, krow :: K => by
    simp only [madd, msub, smulm, List.map_cons, List.zipWith_cons_cons]
    refine congrArg₂ _ (vadd_vsub_smulv c d row krow) ?_
    exact madd_msub_smulm c d M K

/-- C4: `SpaceSolver.matrices(theta, dt)` returns exactly
`(mass − θ·dt·stiffness, mass + (1−θ)·dt·stiffness)` and leaves the
stored solver state unchanged; the legacy `solve_pde` builds the same
pair through `B = A + dt·L`. -/
theorem space_solver_matrices_pair {Mesh Basis : Type}
    (s : SpaceSolver Mesh Basis) (theta dt : ℚ) :
    (s.matrices theta dt).1 =
      (msub s.mass (smulm (theta * dt) s.stiffness),
        madd s.mass (smulm ((1 - theta) * dt) s.stiffness)) ∧
    (s.matrices theta dt).2 = s ∧
    ∀ (I L : Mat ℚ) (lam dt2 : ℚ),
      solve_pde_matrices I L lam dt2 =
        (msub I (smulm (lam * dt2) L),
          madd I (smulm ((1 - lam) * dt2) L)) := by
  refine ⟨rfl, rfl, ?_⟩
  intro I L lam dt2
  unfold solve_pde_matrices
  have h := madd_msub_smulm (lam * dt2) dt2 I L
  have h2 : dt2 - lam * dt2 = (1 - lam) * dt2 := by ring
  rw [h2] at h
  exact Prod.ext rfl h

/-!
## Coordinate transforms (`src/transform.py`)

Floats become reals here because the mappings are transcendental
(`np.log`, `np.exp`, `np.sqrt`).
-/

/-- The `Mapping` protocol: forward and inverse per-axis maps. -/
structure Mapping where
  transform : ℝ → ℝ
  untransform : ℝ → ℝ

/-- `Identity`: leaves values unchanged. -/
def Identity : Mapping := ⟨fun x => x, fun x => x⟩

/-- `LogPrice`: `transform(s) = log s`, `untransform(x) = exp x`. -/
noncomputable def LogPrice : Mapping :=
  ⟨fun s => Real.log s, fun x => Real.exp x⟩

/-- `SqrtVol`: `transform(v) = sqrt v`, `untransform(y) = y ** 2`. -/
noncomputable def SqrtVol : Mapping :=
  ⟨fun v => Real.sqrt v, fun y => y ^ 2⟩

/-- `TimeToMaturity`: `transform(t) = maturity − t`,
`untransform(tau) = maturity − tau`. -/
def TimeToMaturity (maturity : ℝ) : Mapping :=
  ⟨fun t => maturity - t, fun tau => maturity - tau⟩

/-- `CoordinateTransform`: one mapping per axis (price, vol) and one time
mapping, each defaulting to `Identity`. -/
structure CoordinateTransform where
  price : Mapping := Identity
  vol : Mapping := Identity
  time : Mapping := Identity

/-- `CoordinateTransform.transform_state`: apply the price map to axis 0
and, when a second axis is present, the vol map to axis 1; further axes
pass through (`src/transform.py` lines 97–109). -/
def transform_state (ct : CoordinateTransform) : List ℝ → List ℝ
  | [] => []
  | [p] => [ct.price.transform p]
  | p :: v :: rest => ct.price.transform p :: ct.vol.transform v :: rest

/-- `CoordinateTransform.untransform_state`: inverse of
`transform_state`, axis by axis. -/
def untransform_state (ct : CoordinateTransform) : List ℝ → List ℝ
  | [] => []
  | [p] => [ct.price.untransform p]
  | p :: v :: rest => ct.price.untransform p :: ct.vol.untransform v :: rest

/-- `CoordinateTransform.transform_time`. -/
def transform_time (ct : CoordinateTransform) (t : ℝ) : ℝ :=
  ct.time.transform t

/-- `CoordinateTransform.untransform_time`. -/
def untransform_time (ct : CoordinateTransform) (tau : ℝ) : ℝ :=
  ct.time.untransform tau

/-- C6: `untransform(transform(x)) = x` for every valid input: `x > 0`
for `LogPrice`, `x ≥ 0` for `SqrtVol`, every `x` for `Identity` and
`TimeToMaturity`; and the composite `CoordinateTransform` state and time
round trips hold whenever the per-axis round trips do at the coordinates
of the point. -/
theorem transform_round_trip :
    (∀ s : ℝ, 0 < s →
      LogPrice.untransform (LogPrice.transform s) = s) ∧
    (∀ v : ℝ, 0 ≤ v →
      SqrtVol.untransform (SqrtVol.transform v) = v) ∧
    (∀ x : ℝ, Identity.untransform (Identity.transform x) = x) ∧
    (∀ maturity t : ℝ,
      (TimeToMaturity maturity).untransform
        ((TimeToMaturity maturity).transform t) = t) ∧
    (∀ (ct : CoordinateTransform) (x : List ℝ),
      (∀ p ∈ x.take 1, ct.price.untransform (ct.price.transform p) = p) →
      (∀ v ∈ (x.drop 1).take 1,
        ct.vol.untransform (ct.vol.transform v) = v) →
      untransform_state ct (transform_state ct x) = x) ∧
    (∀ (ct : CoordinateTransform) (t : ℝ),
      ct.time.untransform (ct.time.transform t) = t →
      untransform_time ct (transform_time ct t) = t) := by
  refine ⟨?_, ?_, ?_, ?_, ?_, ?_⟩
  · intro s hs; exact Real.exp_log hs
  · intro v hv; exact Real.sq_sqrt hv
  · intro x; rfl
  · intro maturity t
    simp only [TimeToMaturity, Mapping.untransform, Mapping.transform]
    ring
  · intro ct x hp hv
    match x with
    | [] => rfl
    | [p] =>
      simp only [transform_state, untransform_state]
      rw [hp p (by simp)]
    | p :: v :: rest =>
      simp only [transform_state, untransform_state]
      rw [hp p (by simp), hv v (by simp)]
  · intro ct t h; exact h

/-- Witness for C6: concrete round trips at `s = 2`, `v = 4`, `x = 3`,
`maturity = 1, t = 5`, and the composite transform
`(LogPrice, SqrtVol, TimeToMaturity 1)` at the point `(2, 4)`. -/
theorem transform_round_trip_witness :
    LogPrice.untransform (LogPrice.transform 2) = 2 ∧
    SqrtVol.untransform (SqrtVol.transform 4) = 4 ∧
    Identity.untransform (Identity.transform 3) = 3 ∧
    (TimeToMaturity 1).untransform ((TimeToMaturity 1).transform 5) = 5 ∧
    untransform_state ⟨LogPrice, SqrtVol, TimeToMaturity 1⟩
      (transform_state ⟨LogPrice, SqrtVol, TimeToMaturity 1⟩ [2, 4]) =
      [2, 4] ∧
    untransform_time ⟨LogPrice, SqrtVol, TimeToMaturity 1⟩
      (transform_time ⟨LogPrice, SqrtVol, TimeToMaturity 1⟩ 5) = 5 := by
  refine ⟨transform_round_trip.1 2 (by norm_num),
    transform_round_trip.2.1 4 (by norm_num),
    transform_round_trip.2.2.1 3,
    transform_round_trip.2.2.2.1 1 5,
    transform_round_trip.2.2.2.2.1 ⟨LogPrice, SqrtVol, TimeToMaturity 1⟩
      [2, 4] ?_ ?_,
    transform_round_trip.2.2.2.2.2 ⟨LogPrice, SqrtVol, TimeToMaturity 1⟩ 5
      ?_⟩
  · intro p hp
    have : p = 2 := by simpa using hp
    subst this
    exact transform_round_trip.1 2 (by norm_num)
  · intro v hv
    have : v = 4 := by simpa using hv
    subst this
    exact transform_round_trip.2.1 4 (by norm_num)
  · exact transform_round_trip.2.2.2.1 1 5

/-!
## Weak forms (`src/space/forms.py`)

A quadrature point carries the trial/test values `u`, `v` and their
gradients; `skfem.helpers.dot` and `skfem.helpers.mul` are the dot
product and matrix–vector product embedded above.  The dynamics model
supplies `A` (diffusion matrix), `dA` (its divergence), `b` (drift) as
functions of the physical coordinates, and the scalar rate `r`.
-/

/-- The `DynamicsModel` coefficient suppliers used by `PDEForms.l_bil`
(`src/core/interfaces.py`). -/
structure DynamicsM where
  A : List ℝ → Mat ℝ
  dA : List ℝ → List ℝ
  b : List ℝ → List ℝ
  r : ℝ

/-- The integrand of `PDEForms.l_bil` (`src/space/forms.py` lines
70–86): coordinates are first mapped through
`transform.untransform_state`, the corrected drift is
`mu = [b_i - dA_i / 2 for b_i, dA_i in zip(b, dA)]`, and the returned
expression is `-(1/2)·∇v·(A∇u) + v·(mu·∇u) − r·v·u`. -/
noncomputable def l_bil_integrand (dyn : DynamicsM)
    (ct : CoordinateTransform) (x : List ℝ) (u v : ℝ)
    (gradu gradv : List ℝ) : ℝ :=
  let coords := untransform_state ct x
  let A := dyn.A coords
  let dA := dyn.dA coords
  let b := dyn.b coords
  let mu := (b.zip dA).map (fun p => p.1 - p.2 / 2);
  -(1 / 2) * dotv gradv (matvec A gradu) + v * dotv mu gradu
    - dyn.r * v * u

/-- The stiffness integrand as the specification words it:
`−½ ∇v·(A∇u) + v·(μ·∇u) − r·u·v` with `μ_i = b_i − ½(divA)_i`, all
coefficients evaluated at the untransformed (physical) coordinates. -/
noncomputable def stiffness_integrand_stated (dyn : DynamicsM)
    (ct : CoordinateTransform) (x : List ℝ) (u v : ℝ)
    (gradu gradv : List ℝ) : ℝ :=
  let coords := untransform_state ct x
  let mu := List.zipWith (fun bi dai => bi - (1 / 2) * dai)
    (dyn.b coords) (dyn.dA coords);
  -(1 / 2) * dotv gradv (matvec (dyn.A coords) gradu)
    + v * dotv mu gradu - dyn.r * u * v

/-- C3: the assembled stiffness bilinear form evaluates at every
quadrature point to `−½ ∇v·(A∇u) + v·(μ·∇u) − r·u·v` with the corrected
drift `μ_i = b_i − ½(divA)_i`, the coefficients taken at the
untransformed physical coordinates. -/
theorem stiffness_form_corrected_drift (dyn : DynamicsM)
    (ct : CoordinateTransform) (x : List ℝ) (u v : ℝ)
    (gradu gradv : List ℝ) :
    l_bil_integrand dyn ct x u v gradu gradv =
      stiffness_integrand_stated dyn ct x u v gradu gradv := by
  have hzip : ∀ (l1 l2 : List ℝ),
      (l1.zip l2).map (fun p => p.1 - p.2 / 2) =
        List.zipWith (fun bi dai => bi - (1 / 2) * dai) l1 l2 := by
    intro l1 l2
    rw [List.zip_eq_zipWith, List.map_zipWith]
    refine congrFun (congrFun (congrArg _ ?_) l1) l2
    funext a c
    ring
  simp only [l_bil_integrand, stiffness_integrand_stated]
  rw [hzip]
  ring

/-!
## Dirichlet enforcement (`src/space/boundary.py`)
-/

/-- The unit basis row of length `n` with its `1` in column `i`. -/
def unit_row (n i : Nat) : Vec ℚ :=
  (List.range n).map (fun j => if j = i then 1 else 0)

/-- Modelled from the spec: `skfem.enforce`, the external assembly
Dirichlet-row-elimination routine of the external assembly collaborator — it zeroes each
eliminated row, places `1` on its diagonal, sets the right-hand side to
the supplied value at each eliminated degree of freedom, and leaves every
other row and entry bit-identical. -/
def enforce (A : Mat ℚ) (b x : Vec ℚ) (D : List Nat) : Mat ℚ × Vec ℚ :=
  (A.enum.map (fun p => if p.1 ∈ D then unit_row p.2.length p.1 else p.2),
   b.enum.map (fun p => if p.1 ∈ D then x.getD p.1 0 else p.2))

/-- `apply_dirichlet` (`src/space/boundary.py` lines 13–15): delegate to
`fem.enforce` with `D = Vh.get_dofs(bcs)`.  The basis handle is opaque;
its `get_dofs` lookup is the external collaborator `get_dofs`. -/
def apply_dirichlet (get_dofs : List String → List Nat) (A : Mat ℚ)
    (b : Vec ℚ) (bcs : List String) (x : Vec ℚ) : Mat ℚ × Vec ℚ :=
  enforce A b x (get_dofs bcs)

/-- `SpaceSolver.apply_dirichlet` (`src/space/solver.py` lines 125–127):
delegate to `boundary.apply_dirichlet` on the stored basis. -/
def SpaceSolver.apply_dirichlet {Mesh Basis : Type}
    (get_dofs : Basis → List String → List Nat) (s : SpaceSolver Mesh Basis)
    (A : Mat ℚ) (b : Vec ℚ) (dirichlet_bcs : List String)
    (u_dirichlet : Vec ℚ) : Mat ℚ × Vec ℚ :=
  FEO.apply_dirichlet (get_dofs s.Vh) A b dirichlet_bcs u_dirichlet

/-- C5: after `apply_dirichlet`, every eliminated row of `A` is the unit
basis vector at its index, the right-hand side carries the supplied value
at each eliminated index, and every row and entry outside the eliminated
set is identical to the input; `SpaceSolver.apply_dirichlet` delegates to
this routine on the stored basis. -/
theorem apply_dirichlet_eliminated_rows (A : Mat ℚ) (b x : Vec ℚ)
    (D : List Nat) :
    (∀ i ∈ D, (enforce A b x D).1.get? i =
      (A.get? i).map (fun row => unit_row row.length i)) ∧
    (∀ i ∈ D, (enforce A b x D).2.get? i =
      (b.get? i).map (fun _ => x.getD i 0)) ∧
    (∀ i : Nat, i ∉ D → (enforce A b x D).1.get? i = A.get? i ∧
      (enforce A b x D).2.get? i = b.get? i) ∧
    (∀ (Mesh Basis : Type) (get_dofs : Basis → List String → List Nat)
      (s : SpaceSolver Mesh Basis) (bcs : List String),
      s.apply_dirichlet get_dofs A b bcs x =
        enforce A b x (get_dofs s.Vh bcs)) := by
  refine ⟨?_, ?_, ?_, fun _ _ _ _ _ => rfl⟩
  · intro i hi
    rw [enforce, List.get?_map, List.get?_enum]
    cases h : A.get? i with
    | none => rfl
    | some row => simp [hi]
  · intro i hi
    rw [enforce, List.get?_map, List.get?_enum]
    cases h : b.get? i with
    | none => rfl
    | some bi => simp [hi]
  · intro i hi
    constructor
    · rw [enforce, List.get?_map, List.get?_enum]
      cases h : A.get? i with
      | none => rfl
      | some row => simp [hi]
    · rw [enforce, List.get?_map, List.get?_enum]
      cases h : b.get? i with
      | none => rfl
      | some bi => simp [hi]

/-- Witness for C5 on the system `A = [[1, 2], [3, 4]]`, `b = [5, 6]`,
`x = [7, 8]` with eliminated set `{0}`: row 0 becomes the unit basis row
and `b` gets `x` there, row 1 is untouched. -/
theorem apply_dirichlet_eliminated_rows_witness :
    (enforce [[1, 2], [3, 4]] [5, 6] [7, 8] [0]).1.get? 0 =
      (([[1, 2], [3, 4]] : Mat ℚ).get? 0).map
        (fun row => unit_row row.length 0) ∧
    (enforce [[1, 2], [3, 4]] [5, 6] [7, 8] [0]).2.get? 0 =
      (([5, 6] : Vec ℚ).get? 0).map
        (fun _ => ([7, 8] : Vec ℚ).getD 0 0) ∧
    (enforce [[1, 2], [3, 4]] [5, 6] [7, 8] [0]).1.get? 1 =
      ([[1, 2], [3, 4]] : Mat ℚ).get? 1 ∧
    (enforce [[1, 2], [3, 4]] [5, 6] [7, 8] [0]).2.get? 1 =
      ([5, 6] : Vec ℚ).get? 1 := by
  have h := apply_dirichlet_eliminated_rows
    ([[1, 2], [3, 4]] : Mat ℚ) ([5, 6] : Vec ℚ) ([7, 8] : Vec ℚ) [0]
  have h1 := h.2.2.1 1 (by decide)
  exact ⟨h.1 0 (by decide), h.2.1 0 (by decide), h1.1, h1.2⟩

/-!
## Adaptive refinement plumbing in `SpaceSolver`
(`src/space/solver.py` lines 129–144)
-/

/-- How the `SpaceSolver` constructor handles `adaptive_criterion`
(`src/space/solver.py` lines 51–71): external collaborators build the
bases and assemble the two matrices; `self.adapt` is set exactly when a
criterion string is supplied. -/
def SpaceSolver.init {Mesh Basis : Type} (cellBasis facetBasis : Mesh → Basis)
    (assemble_mass assemble_stiffness : Basis → Mat ℚ) (mesh : Mesh)
    (adaptive_criterion : Option String) : SpaceSolver Mesh Basis :=
  { mesh := mesh
    Vh := cellBasis mesh
    dVh := facetBasis mesh
    mass := assemble_mass (cellBasis mesh)
    stiffness := assemble_stiffness (cellBasis mesh)
    adapt := adaptive_criterion }

/-- `SpaceSolver.refine_mesh`: raise
`ValueError("Adaptive mesh not configured for this solver.")` when no
adaptive criterion is configured (before touching any state), else
replace the mesh, rebuild both bases and re-assemble mass and stiffness.
The second component is the solver state after the call; `refine` is
`self.adapt.refine` (criterion-dependent), the remaining parameters are
the external basis/assembly collaborators. -/
def SpaceSolver.refine_mesh {Mesh Basis : Type}
    (refine : String → Mesh → Vec ℚ → Mesh)
    (cellBasis facetBasis : Mesh → Basis)
    (assemble_mass assemble_stiffness : Basis → Mat ℚ)
    (s : SpaceSolver Mesh Basis) (u : Vec ℚ) :
    Except String Mesh × SpaceSolver Mesh Basis :=
  match s.adapt with
  | none => (Except.error "Adaptive mesh not configured for this solver.", s)
  | some crit =>
    let newMesh := refine crit s.mesh u
    let newVh := cellBasis newMesh
    (Except.ok newMesh,
     { s with
       mesh := newMesh, Vh := newVh, dVh := facetBasis newMesh,
       mass := assemble_mass newVh, stiffness := assemble_stiffness newVh })

/-- C7: a `SpaceSolver` built without an adaptive criterion answers every
`refine_mesh(u)` with the not-configured error and its stored state
unchanged; with a criterion configured, `refine_mesh` returns the refined
mesh and the state with mesh/bases replaced and both matrices
re-assembled against the new basis. -/
theorem refine_mesh_not_configured {Mesh Basis : Type}
    (refine : String → Mesh → Vec ℚ → Mesh)
    (cellBasis facetBasis : Mesh → Basis)
    (assemble_mass assemble_stiffness : Basis → Mat ℚ)
    (s : SpaceSolver Mesh Basis) (u : Vec ℚ) :
    (s.adapt = none →
      s.refine_mesh refine cellBasis facetBasis assemble_mass
        assemble_stiffness u =
        (Except.error "Adaptive mesh not configured for this solver.",
          s)) ∧
    (∀ mesh : Mesh,
      (SpaceSolver.init cellBasis facetBasis assemble_mass
        assemble_stiffness mesh none).adapt = none) ∧
    (∀ crit : String, s.adapt = some crit →
      s.refine_mesh refine cellBasis facetBasis assemble_mass
        assemble_stiffness u =
        (Except.ok (refine crit s.mesh u),
         { s with
            mesh := refine crit s.mesh u,
            Vh := cellBasis (refine crit s.mesh u),
            dVh := facetBasis (refine crit s.mesh u),
            mass := assemble_mass (cellBasis (refine crit s.mesh u)),
            stiffness :=
              assemble_stiffness (cellBasis (refine crit s.mesh u)) })) := by
  refine ⟨?_, fun _ => rfl, ?_⟩
  · intro h
    unfold SpaceSolver.refine_mesh
    rw [h]
  · intro crit h
    unfold SpaceSolver.refine_mesh
    rw [h]

/-- Witness for C7: a concrete solver over `Mesh = Basis = Nat` with no
adaptive criterion reports the not-configured error with state intact. -/
theorem refine_mesh_not_configured_witness :
    SpaceSolver.refine_mesh (fun _ m _ => m + 1) (fun m => m) (fun m => m)
      (fun _ => [[1]]) (fun _ => [[2]])
      (SpaceSolver.init (fun m => m) (fun m => m) (fun _ => [[1]])
        (fun _ => [[2]]) (0 : Nat) none) [3] =
      (Except.error "Adaptive mesh not configured for this solver.",
        SpaceSolver.init (fun m => m) (fun m => m) (fun _ => [[1]])
          (fun _ => [[2]]) (0 : Nat) none) :=
  (refine_mesh_not_configured (fun _ m _ => m + 1) (fun m => m)
    (fun m => m) (fun _ => [[1]]) (fun _ => [[2]])
    (SpaceSolver.init (fun m => m) (fun m => m) (fun _ => [[1]])
      (fun _ => [[2]]) (0 : Nat) none) [3]).1 rfl

/-!
## Adaptive coarsening (`src/space/adaptive.py`)

A mesh is embedded as its element list.  The error estimators
(`_residual_estimator`, `_gradient_estimator`) delegate to external
skfem assembly, so `_estimate` is abstracted as the `estimate`
parameter; the geometric `Mesh.remove_elements` collaborator is modelled
from the contract stated in the specification.
-/

/-- Complement rule for `countP`. -/
theorem countP_not_eq {α : Type} (p : α → Bool) (l : List α) :
    l.countP (fun a => !p a) = l.length - l.countP p := by
  induction l with
  | nil => rfl
  | cons a l ih =>
    rw [List.countP_cons, List.countP_cons, ih]
    have h := List.countP_le_length (l := l) (p := p)
    cases hpa : p a
    all_goals simp
    all_goals omega

/-- A duplicate-free list of indices below `n` hits `List.range n`
exactly `length` many times. -/
theorem countP_mem_range_eq_length (idxs : List Nat) (n : Nat)
    (hnd : idxs.Nodup) (hbd : ∀ i ∈ idxs, i < n) :
    (List.range n).countP (fun i => decide (i ∈ idxs)) = idxs.length := by
  classical
  rw [List.countP_eq_length_filter]
  have hndF : ((List.range n).filter (fun i => decide (i ∈ idxs))).Nodup :=
    (List.nodup_range n).filter _
  have hmem : ∀ x : Nat,
      x ∈ (List.range n).filter (fun i => decide (i ∈ idxs)) ↔ x ∈ idxs := by
    intro x
    rw [List.mem_filter, List.mem_range]
    constructor
    · rintro ⟨_, hx⟩; simpa using hx
    · intro hx; exact ⟨hbd x hx, by simpa using hx⟩
  have hfs : ((List.range n).filter (fun i => decide (i ∈ idxs))).toFinset =
      idxs.toFinset := by
    ext x
    simp only [List.mem_toFinset]
    exact hmem x
  calc ((List.range n).filter (fun i => decide (i ∈ idxs))).length
      = ((List.range n).filter (fun i => decide (i ∈ idxs))).toFinset.card :=
        (List.toFinset_card_of_nodup hndF).symm
    _ = idxs.toFinset.card := by rw [hfs]
    _ = idxs.length := List.toFinset_card_of_nodup hnd

/-- Modelled from the spec: the external mesh collaborator
`removeElements(indices)` keeps exactly the elements whose index is not
listed. -/
def remove_elements {E : Type} (m : List E) (idxs : List Nat) : List E :=
  (m.enum.filter (fun p => decide (p.1 ∉ idxs))).map Prod.snd

/-- Removing a duplicate-free, in-range index set shrinks the element
list by exactly its size. -/
theorem remove_elements_length {E : Type} (m : List E) (idxs : List Nat)
    (hnd : idxs.Nodup) (hbd : ∀ i ∈ idxs, i < m.length) :
    (remove_elements m idxs).length = m.length - idxs.length := by
  classical
  unfold remove_elements
  rw [List.length_map, ← List.countP_eq_length_filter]
  have h1 : (List.countP (fun p => decide (p.1 ∉ idxs)) m.enum) =
      List.countP (fun p : Nat × E => !decide (p.1 ∈ idxs)) m.enum := by
    refine List.countP_congr ?_
    intro a _
    simp
  rw [h1, countP_not_eq, List.enum_length]
  have h2 : List.countP (fun p : Nat × E => decide (p.1 ∈ idxs)) m.enum =
      idxs.length := by
    have h3 : List.countP (fun i : Nat => decide (i ∈ idxs))
        (m.enum.map Prod.fst) =
        List.countP (fun p : Nat × E => decide (p.1 ∈ idxs)) m.enum := by
      rw [List.countP_map]
      rfl
    rw [List.enum_map_fst] at h3
    rw [← h3, countP_mem_range_eq_length idxs m.length hnd hbd]
  rw [h2]

/-- `np.argsort`: the indices `0 … n−1` reordered by ascending entry of
`l` (ties broken arbitrarily; the unstable numpy quicksort and this stable
sort agree up to tie order, which no claim depends on). -/
def argsort (l : List ℚ) : List Nat :=
  (List.range l.length).insertionSort (fun i j => l.getD i 0 ≤ l.getD j 0)

/-- `argsort` permutes `range`. -/
theorem argsort_perm (l : List ℚ) :
    (argsort l).Perm (List.range l.length) :=
  List.perm_insertionSort _ _

/-- `AdaptiveMesh.coarsen` (`src/space/adaptive.py` lines 103–110):
`eta = _estimate(mesh, u)`, `remove = np.argsort(eta)[: len(eta) // 2]`,
then `mesh.remove_elements(remove)` (the optional boundary re-tagging
step does not change the element count). -/
def coarsen {E : Type} (estimate : List E → Vec ℚ → List ℚ)
    (m : List E) (u : Vec ℚ) : List E :=
  let eta := estimate m u
  let remove := (argsort eta).take (eta.length / 2)
  remove_elements m remove

/-- C8 (amended): when the estimator returns one indicator per element,
`coarsen` removes the `⌊n/2⌋` elements of lowest indicator — the removed
indices all rank below every kept index — leaving `n − ⌊n/2⌋` elements,
which is a strict decrease whenever the mesh has at least two
elements. -/
theorem coarsen_lowest_half (E : Type) (estimate : List E → Vec ℚ → List ℚ)
    (m : List E) (u : Vec ℚ)
    (hlen : (estimate m u).length = m.length) (h2 : 2 ≤ m.length) :
    (coarsen estimate m u).length = m.length - m.length / 2 ∧
    (coarsen estimate m u).length < m.length ∧
    (∀ i ∈ (argsort (estimate m u)).take ((estimate m u).length / 2),
      ∀ j ∈ (argsort (estimate m u)).drop ((estimate m u).length / 2),
        (estimate m u).getD i 0 ≤ (estimate m u).getD j 0) := by
  classical
  set eta := estimate m u with heta
  have hperm := argsort_perm eta
  have hndall : (argsort eta).Nodup := hperm.nodup_iff.mpr (List.nodup_range _)
  have hlen2 : (argsort eta).length = eta.length := by
    unfold argsort
    rw [List.length_insertionSort, List.length_range]
  have hnd : ((argsort eta).take (eta.length / 2)).Nodup :=
    (List.take_sublist _ _).nodup hndall
  have hbd : ∀ i ∈ (argsort eta).take (eta.length / 2), i < m.length := by
    intro i hi
    have hmem : i ∈ argsort eta := (List.take_sublist _ _).mem hi
    have : i ∈ List.range eta.length := hperm.mem_iff.mp hmem
    rw [List.mem_range] at this
    omega
  have htklen : ((argsort eta).take (eta.length / 2)).length =
      m.length / 2 := by
    rw [List.length_take, hlen2, hlen]
    exact min_eq_left (Nat.div_le_self _ _)
  have hcount : (coarsen estimate m u).length =
      m.length - m.length / 2 := by
    unfold coarsen
    rw [← heta, remove_elements_length m _ hnd hbd, htklen]
  refine ⟨hcount, ?_, ?_⟩
  · rw [hcount]
    have : 1 ≤ m.length / 2 := by omega
    omega
  · intro i hi j hj
    have hsorted : List.Sorted (fun i j => eta.getD i 0 ≤ eta.getD j 0)
        (argsort eta) := by
      haveI : IsTotal Nat (fun i j => eta.getD i 0 ≤ eta.getD j 0) :=
        ⟨fun a b => le_total _ _⟩
      haveI : IsTrans Nat (fun i j => eta.getD i 0 ≤ eta.getD j 0) :=
        ⟨fun a b c hab hbc => le_trans hab hbc⟩
      exact List.sorted_insertionSort _ _
    have hsplit := List.take_append_drop (eta.length / 2) (argsort eta)
    rw [← hsplit] at hsorted
    exact (List.pairwise_append.mp hsorted).2.2 i hi j hj

/-- The estimator used in the concrete C8 instances: one zero indicator
per element. -/
def estimate_const {E : Type} : List E → Vec ℚ → List ℚ :=
  fun m _ => m.map (fun _ => 0)

/-- Witness for the amended C8 on a two-element mesh: one element is
removed. -/
theorem coarsen_lowest_half_witness :
    (coarsen estimate_const ([(), ()] : List Unit) []).length = 1 ∧
    (coarsen estimate_const ([(), ()] : List Unit) []).length < 2 := by
  have h := coarsen_lowest_half Unit estimate_const [(), ()] [] rfl
    (by decide)
  exact ⟨h.1, h.2.1⟩

/-- Counterexample to C8 as stated: on a one-element mesh
`len(eta) // 2 = 0`, so `coarsen` removes nothing and the element count
does not strictly decrease. -/
theorem coarsen_single_element_cex :
    coarsen estimate_const ([()] : List Unit) [] = [()] ∧
    ¬ ((coarsen estimate_const ([()] : List Unit) []).length <
        ([()] : List Unit).length) := by
  constructor
  · rfl
  · decide

/-!
## The `config` keyword in `SpaceSolver.dirichlet`
(`src/space/solver.py` lines 97–123)

`dirichlet` always passes `config=self.config` to
`dynamics.mean_variance`.  Whether that call binds is a fact of Python
call semantics, embedded below: a keyword argument binds exactly when
its name is a declared parameter not already bound positionally (or a
`**kwargs` catch-all exists); otherwise the call raises `TypeError`.
The variance coordinate it passes is `untransform_state(x)[1]`, a numpy
index evaluated (left to right) before the call, raising `IndexError`
when the state has a single axis.
-/

/-- A Python positional-or-keyword signature: parameter names after
`self`, plus whether a `**kwargs` catch-all is declared. -/
structure PySig where
  params : List String
  hasVarKw : Bool

/-- `DynamicsParametersBlackScholes.mean_variance(self, th, _)`
(`src/core/dynamics_black_scholes.py` lines 22–24): exactly the
two-positional-argument signature declared by the `DynamicsModel`
protocol (`src/core/interfaces.py` lines 38–39). -/
def bs_mean_variance_sig : PySig := ⟨["th", "_"], false⟩

/-- `DynamicsParametersHeston.mean_variance(self, th, v)`
(`src/dynamics_heston.py` line 24): also two positional parameters and
no `config`. -/
def legacy_heston_mean_variance_sig : PySig := ⟨["th", "v"], false⟩

/-- Whether `f(a₁, …, a_npos, kw=…)` binds the keyword `kw`. -/
def bindsKeyword (sig : PySig) (npos : Nat) (kw : String) : Bool :=
  sig.hasVarKw || (sig.params.drop npos).contains kw

/-- `dynamics.mean_variance(th, v, config=self.config)` under Python
call semantics. -/
def call_mean_variance (sig : PySig) (impl : ℝ → ℝ → ℝ) (th v : ℝ) :
    Except String ℝ :=
  if bindsKeyword sig 2 "config" then Except.ok (impl th v)
  else Except.error "TypeError"

/-- `numpy` row indexing `a[i]`: `IndexError` when out of range. -/
def npGet (a : List ℝ) (i : Nat) : Except String ℝ :=
  match a.get? i with
  | some x => Except.ok x
  | none => Except.error "IndexError"

/-- One evaluation of the function projected by `SpaceSolver.dirichlet`,
in the left-to-right evaluation order of Python: the price coordinate
`untransform_state(x)[0]`, the variance coordinate
`untransform_state(x)[1]`, the `mean_variance` call carrying
`config=self.config`, then the closed-form payoff price (`payoff.call`
or `payoff.put` according to `is_call`, abstracted as `price_fn`). -/
def dirichlet_point (ct : CoordinateTransform) (sig : PySig)
    (impl : ℝ → ℝ → ℝ) (price_fn : ℝ → ℝ → ℝ → ℝ) (th_phys : ℝ)
    (x : List ℝ) : Except String ℝ := do
  let s ← npGet (untransform_state ct x) 0
  let vcoord ← npGet (untransform_state ct x) 1
  let mv ← call_mean_variance sig impl th_phys vcoord
  pure (price_fn th_phys s mv)

/-- `Vh.project` evaluates the pointwise function at the basis points; a
Python exception at any point aborts the projection. -/
def projectE (f : List ℝ → Except String ℝ) :
    List (List ℝ) → Except String (List ℝ)
  | [] => Except.ok []
  | p :: rest => do
    let y ← f p
    let ys ← projectE f rest
    pure (y :: ys)

/-- `SpaceSolver.dirichlet(th)`: untransform the time, then project the
payoff price over the degree-of-freedom points. -/
def dirichlet_model (ct : CoordinateTransform) (sig : PySig)
    (impl : ℝ → ℝ → ℝ) (price_fn : ℝ → ℝ → ℝ → ℝ)
    (pts : List (List ℝ)) (th : ℝ) : Except String (List ℝ) :=
  projectE (dirichlet_point ct sig impl price_fn (untransform_time ct th))
    pts

/-- `untransform_state` keeps the number of axes. -/
theorem untransform_state_length (ct : CoordinateTransform) (x : List ℝ) :
    (untransform_state ct x).length = x.length := by
  match x with
  | [] => rfl
  | [p] => rfl
  | p :: v :: rest => rfl

/-- C10 (amended): `dirichlet` always passes the `config` keyword to
`mean_variance`; against a dynamics whose `mean_variance` declares only
only the two positional protocol parameters (and no `**kwargs`), every
evaluation point with at least two state axes makes `dirichlet` raise
`TypeError`, for every time `th`. -/
theorem dirichlet_config_keyword_type_error (ct : CoordinateTransform)
    (sig : PySig) (impl : ℝ → ℝ → ℝ) (price_fn : ℝ → ℝ → ℝ → ℝ)
    (x : List ℝ) (pts : List (List ℝ)) (th : ℝ)
    (hsig : bindsKeyword sig 2 "config" = false) (hx : 2 ≤ x.length) :
    dirichlet_model ct sig impl price_fn (x :: pts) th =
      Except.error "TypeError" := by
  match x, hx with
  | x0 :: x1 :: xrest, _ =>
    simp only [dirichlet_model, projectE, dirichlet_point, npGet,
      untransform_state, List.get?, call_mean_variance, hsig]
    rfl

/-- Witness for the amended C10: the legacy two-dimensional Heston
signature on a two-axis point produces `TypeError` at `th = 0`. -/
theorem dirichlet_config_keyword_type_error_witness :
    dirichlet_model ⟨Identity, Identity, Identity⟩
      legacy_heston_mean_variance_sig (fun _ _ => 0) (fun _ _ _ => 0)
      [[1, 2]] 0 = Except.error "TypeError" :=
  dirichlet_config_keyword_type_error ⟨Identity, Identity, Identity⟩
    legacy_heston_mean_variance_sig (fun _ _ => 0) (fun _ _ _ => 0)
    [1, 2] [] 0 rfl (by decide)

/-- Counterexample to C10 as stated: for the one-dimensional
`DynamicsParametersBlackScholes` the variance-coordinate lookup
`untransform_state(x)[1]` fails first, so `dirichlet` raises
`IndexError`, not `TypeError`. -/
theorem dirichlet_bs_index_error_cex :
    dirichlet_model ⟨Identity, Identity, Identity⟩ bs_mean_variance_sig
      (fun _ _ => 0) (fun _ _ _ => 0) [[1]] 0 =
      Except.error "IndexError" ∧
    dirichlet_model ⟨Identity, Identity, Identity⟩ bs_mean_variance_sig
      (fun _ _ => 0) (fun _ _ _ => 0) [[1]] 0 ≠
      Except.error "TypeError" := by
  constructor
  · rfl
  · intro h
    simp only [dirichlet_model, projectE, dirichlet_point, npGet,
      untransform_state, List.get?] at h
    exact absurd (Except.error.injEq _ _ ▸ congrArg id h) (by simp)

end FEO
